import Mathlib

/-!
Verification of the `Drain` / `Splice` core of a growable contiguous
vector (`shared_vector`), shallowly embedded from `src/drain.rs` and
`src/splice.rs`.

The container's raw storage is modelled as a `List α` of slots (the list
length is the capacity) together with a logical length `len`; slot
addressing by raw pointer in the source becomes index arithmetic here.
`ptr::write` becomes `List.set`; `ptr::copy` (memmove, overlap-safe)
becomes `copySlots`, which snapshots the source region and then writes it
at the destination.  Element destruction does not change slot contents, so
`drop_in_place` only determines whether an abort (panic) occurs; the RAII
`DropGuard` of `Drain::drop` is embedded by running its body on every exit
path of the function, abort or not.
-/

namespace SharedVector

/-- Write the values `vs` at consecutive slots starting at `dst`
(`List.set` one slot at a time), the elementary act behind `ptr::copy`
and the fill loop's `ptr::write`. -/
def writeSeq {α : Type} (l : List α) (dst : Nat) : List α → List α
  | [] => l
  | v :: vs => writeSeq (l.set dst v) (dst + 1) vs

/-- `ptr::copy(src, dst, cnt)`: memmove `cnt` slots from index `src` to
index `dst`.  The source region is snapshotted first, so overlapping
regions behave as memmove does. -/
def copySlots {α : Type} (l : List α) (src dst cnt : Nat) : List α :=
  writeSeq l dst ((l.drop src).take cnt)

/-- The container core (`RawVector<T>`): a block of `data.length` slots
(the capacity) of which the first `len` are the live elements. -/
structure RawVector (α : Type) where
  data : List α
  len : Nat

/-- The live elements of the container: the first `len` slots. -/
def RawVector.live {α : Type} (v : RawVector α) : List α :=
  v.data.take v.len

/-- Modelled from the spec: the container's `reserve`/`try_reserve`
operation (delegating to the allocator), absent from `src/`.  `alloc`
says whether the allocator can provide a block of a requested total
capacity.  On success the existing slots are preserved and new
uninitialized slots (junk `default` values) are appended; on failure
`none` is returned and nothing changes. -/
def RawVector.tryReserve {α : Type} [Inhabited α] (v : RawVector α)
    (alloc : Nat → Bool) (total : Nat) : Option (RawVector α) :=
  if total ≤ v.data.length then some v
  else if alloc total then
    some { v with data := v.data ++ List.replicate (total - v.data.length) default }
  else none

/-- Modelled from the spec: the container's `extend` (append-from-sequence
with growth, `append_from` in §6), absent from `src/`.  The elements of
`xs` are appended after the live prefix, growing capacity as needed. -/
def RawVector.extend {α : Type} (v : RawVector α) (xs : List α) : RawVector α :=
  { data := v.data.take v.len ++ xs ++ v.data.drop (v.len + xs.length),
    len := v.len + xs.length }

/-- The `Drain<'a, T>` view (`src/drain.rs`): `tail_start` / `tail_len`
describe the preserved suffix; the `slice::Iter` cursor over the
not-yet-yielded removed elements is the index pair `front`/`back`
(the slots `[front, back)`); `vec` is the borrowed container. -/
structure Drain (α : Type) where
  tail_start : Nat
  tail_len : Nat
  front : Nat
  back : Nat
  vec : RawVector α

/-- Modelled from the spec (§4.1 Construction): `Vector::drain` builds the
view for the removed range `[s, e)`: `tail_start = e`,
`tail_len = L - e`, the container's visible length becomes `s`, cursor
over `[s, e)`.  The constructor lives in the container, not in `src/`. -/
def RawVector.drain {α : Type} (v : RawVector α) (s e : Nat) : Drain α :=
  { tail_start := e
    tail_len := v.len - e
    front := s
    back := e
    vec := { v with len := s } }

/-- `Drain::next`: move the front element out and advance the cursor;
`none` once the cursor is empty (and then the state is unchanged). -/
def Drain.next {α : Type} [Inhabited α] (d : Drain α) : Option α × Drain α :=
  if d.front < d.back then
    (some (d.vec.data.getD d.front default), { d with front := d.front + 1 })
  else (none, d)

/-- `Drain::next_back`: move the back element out and retreat the cursor. -/
def Drain.next_back {α : Type} [Inhabited α] (d : Drain α) : Option α × Drain α :=
  if d.front < d.back then
    (some (d.vec.data.getD (d.back - 1) default), { d with back := d.back - 1 })
  else (none, d)

/-- `Drain::size_hint`, delegating to the slice iterator: exact
`(len, Some len)`. -/
def Drain.size_hint {α : Type} (d : Drain α) : Nat × Option Nat :=
  (d.back - d.front, some (d.back - d.front))

/-- The body of `DropGuard::drop` in `Drain::drop`: if `tail_len > 0`,
memmove the untouched tail back down to the current length and update the
length to `start + tail_len`; the copy is skipped when `tail == start`. -/
def dropGuardRun {α : Type} [Inhabited α] (tail_start tail_len : Nat)
    (v : RawVector α) : RawVector α :=
  if 0 < tail_len then
    let start := v.len
    let tail := tail_start
    let data := if tail ≠ start then copySlots v.data tail start tail_len else v.data
    { data := data, len := start + tail_len }
  else v

/-- `Drain::drop`.  `panics : α → Bool` says whether destroying a given
element aborts execution; the returned `Option α` is the element whose
destructor aborted, if any (the first panicking element of the contiguous
batch dropped by `drop_in_place`).  The `DropGuard` is registered before
any destruction and its body runs on every exit path — early return,
normal completion, or unwinding from the abort — so the container
component of the result goes through `dropGuardRun` in every case. -/
def Drain.drop {α : Type} [Inhabited α] (panics : α → Bool) (d : Drain α) :
    Option α × RawVector α :=
  let drop_len := d.back - d.front
  if drop_len = 0 then
    (none, dropGuardRun d.tail_start d.tail_len d.vec)
  else
    let to_drop := (d.vec.data.drop d.front).take drop_len
    (to_drop.find? panics, dropGuardRun d.tail_start d.tail_len d.vec)

/-- A pull sequence against a `Drain`: `true` pulls from the front
(`next`), `false` from the back (`next_back`); returns the yielded
elements in pull order and the final cursor state. -/
def Drain.consumeSeq {α : Type} [Inhabited α] : List Bool → Drain α → List α × Drain α
  | [], d => ([], d)
  | b :: bs, d =>
    let p := if b then d.next else d.next_back
    match p with
    | (none, d1) => Drain.consumeSeq bs d1
    | (some x, d1) =>
      let r := Drain.consumeSeq bs d1
      (x :: r.1, r.2)

/-- Pull `k` elements from the front of a `Drain` (stopping early at
exhaustion), returning the yielded elements and the final state. -/
def Drain.consumeFront {α : Type} [Inhabited α] : Nat → Drain α → List α × Drain α
  | 0, d => ([], d)
  | k + 1, d =>
    match d.next with
    | (none, d1) => ([], d1)
    | (some x, d1) =>
      let r := Drain.consumeFront k d1
      (x :: r.1, r.2)

/-- The loop of `Drain::fill` (`src/splice.rs`), recursing on the gap size
`k = tail_start - vec.len`: for each place of the gap pull one element
from `replace_with`, `ptr::write` it and bump the length; stop with
`false` when the sequence is exhausted first.  Returns
(filled-entire-range, slots, new length, remaining sequence). -/
def fillLoop {α : Type} : Nat → List α → Nat → List α → Bool × List α × Nat × List α
  | 0, data, len, repl => (true, data, len, repl)
  | _ + 1, data, len, [] => (false, data, len, [])
  | k + 1, data, len, x :: xs => fillLoop k (data.set len x) (len + 1) xs

/-- `Drain::fill`: fill the moved-out range `[vec.len, tail_start)` from
the replacement sequence (here the list of its remaining elements).
Returns the filled flag, the updated view and the rest of the sequence. -/
def Drain.fill {α : Type} (d : Drain α) (replace_with : List α) :
    Bool × Drain α × List α :=
  let range_start := d.vec.len
  let range_end := d.tail_start
  let r := fillLoop (range_end - range_start) d.vec.data range_start replace_with
  (r.1, { d with vec := { data := r.2.1, len := r.2.2.1 } }, r.2.2.2)

/-- `Drain::move_tail`: make room for `additional` more elements before
the tail.  First `try_reserve` capacity for
`tail_start + tail_len + additional` total elements; the `.unwrap()` on
an allocation failure aborts before anything is shifted, modelled by the
`false` outcome carrying the untouched state.  On success the tail is
memmoved forward by `additional` slots and `tail_start` advances. -/
def Drain.move_tail {α : Type} [Inhabited α] (d : Drain α) (alloc : Nat → Bool)
    (additional : Nat) : Bool × Drain α :=
  let len := d.tail_start + d.tail_len
  match d.vec.tryReserve alloc (len + additional) with
  | none => (false, d)
  | some v1 =>
    let new_tail_start := d.tail_start + additional
    let data := copySlots v1.data d.tail_start new_tail_start d.tail_len
    (true, { d with vec := { v1 with data := data }, tail_start := new_tail_start })

/-- The `Splice<'a, I>` view: the inner `Drain` plus the replacement
sequence (modelled by the list of elements it will yield). -/
structure Splice (α : Type) where
  drain : Drain α
  replace_with : List α

/-- `Splice::next`, delegating to the inner drain. -/
def Splice.next {α : Type} [Inhabited α] (s : Splice α) : Option α × Splice α :=
  let p := s.drain.next
  (p.1, { s with drain := p.2 })

/-- `Splice::next_back`, delegating to the inner drain. -/
def Splice.next_back {α : Type} [Inhabited α] (s : Splice α) : Option α × Splice α :=
  let p := s.drain.next_back
  (p.1, { s with drain := p.2 })

/-- `Splice::size_hint`, delegating to the inner drain. -/
def Splice.size_hint {α : Type} (s : Splice α) : Nat × Option Nat :=
  s.drain.size_hint

/-- A pull sequence against a `Splice` (`true` = `next`,
`false` = `next_back`). -/
def Splice.consumeSeq {α : Type} [Inhabited α] : List Bool → Splice α → List α × Splice α
  | [], s => ([], s)
  | b :: bs, s =>
    let p := if b then s.next else s.next_back
    match p with
    | (none, s1) => Splice.consumeSeq bs s1
    | (some x, s1) =>
      let r := Splice.consumeSeq bs s1
      (x :: r.1, r.2)

/-- The estimate-based growth pass of `Splice::drop` (step: take the
lower bound of `size_hint`; if positive, `move_tail` by it and re-run
`fill`).  `hint rest` is the lower bound the replacement iterator reports
when its remaining elements are `rest`.  Result: `none` when the
reservation inside `move_tail` fails (abort), otherwise the updated view,
the remaining sequence, and the flag of the re-run `fill` (`true` also
when the pass was skipped because the estimate was zero). -/
def growthPass {α : Type} [Inhabited α] (hint : List α → Nat) (alloc : Nat → Bool)
    (d : Drain α) (rest : List α) : Option (Drain α × List α × Bool) :=
  let lower_bound := hint rest
  if 0 < lower_bound then
    match d.move_tail alloc lower_bound with
    | (false, _) => none
    | (true, d1) =>
      let r := d1.fill rest
      some (r.2.1, r.2.2, r.1)
  else some (d, rest, true)

/-- The exact-remainder pass at the end of `Splice::drop`: the leftovers
of the replacement sequence are collected into a count-known buffer; if
that count is positive the tail is moved by exactly that count and the
gap filled from the buffer.  Both ways the inner `Drain::drop` then runs
(with an empty cursor, so no element is dropped there, only the tail
restoration).  `none` means the reservation inside `move_tail` failed and
the splice aborted. -/
def collectPass {α : Type} [Inhabited α] (alloc : Nat → Bool) (d : Drain α)
    (collected : List α) : Option (RawVector α) :=
  if 0 < collected.length then
    match d.move_tail alloc collected.length with
    | (false, _) => none
    | (true, d3) =>
      let r3 := d3.fill collected
      some (Drain.drop (fun _ => false) r3.2.1).2
  else some (Drain.drop (fun _ => false) d).2

/-- The body of `Splice::drop` after the inner iterator has been drained
and detached: dispatch between the fast `tail_len == 0` path, the first
fill pass, the estimate-based `growthPass` and the exact-remainder
`collectPass`. -/
def spliceCore {α : Type} [Inhabited α] (hint : List α → Nat) (alloc : Nat → Bool)
    (d : Drain α) (replace_with : List α) : Option (RawVector α) :=
  if d.tail_len = 0 then
    let v := d.vec.extend replace_with
    some (Drain.drop (fun _ => false) { d with vec := v }).2
  else
    let r1 := d.fill replace_with
    if r1.1 = false then some (Drain.drop (fun _ => false) r1.2.1).2
    else
      match growthPass hint alloc r1.2.1 r1.2.2 with
      | none => none
      | some (d2, rest2, filled2) =>
        if filled2 = false then some (Drain.drop (fun _ => false) d2).2
        else collectPass alloc d2 rest2

/-- `Splice::drop`: first `self.drain.by_ref().for_each(drop)` consumes
the not-yet-yielded removed elements (cursor moves to `back`; slot memory
is untouched), then the cursor is replaced by an empty iterator, then
`spliceCore` runs the fill/growth/collect passes and the final inner
`Drain::drop`. -/
def Splice.drop {α : Type} [Inhabited α] (hint : List α → Nat) (alloc : Nat → Bool)
    (s : Splice α) : Option (RawVector α) :=
  let d0 : Drain α := { s.drain with front := s.drain.back }
  let d1 : Drain α := { d0 with front := 0, back := 0 }
  spliceCore hint alloc d1 s.replace_with

/-- Modelled from the spec (§4.2 / §6): `Vector::splice` builds the view
from a drain over the range plus the replacement sequence; the
constructor lives in the container, not in `src/`. -/
def RawVector.splice {α : Type} (v : RawVector α) (s e : Nat)
    (replace_with : List α) : Splice α :=
  { drain := v.drain s e, replace_with := replace_with }

/-! ### Basic lemmas about the slot-writing primitives -/

theorem writeSeq_length {α : Type} (vs : List α) (l : List α) (dst : Nat) :
    (writeSeq l dst vs).length = l.length := by
  induction vs generalizing l dst with
  | nil => rfl
  | cons v vs ih => simp [writeSeq, ih]

theorem writeSeq_eq {α : Type} (vs : List α) (l : List α) (dst : Nat)
    (h : dst + vs.length ≤ l.length) :
    writeSeq l dst vs = l.take dst ++ vs ++ l.drop (dst + vs.length) := by
  induction vs generalizing l dst with
  | nil => simp [writeSeq]
  | cons v vs ih =>
    have hd : dst < l.length := by simp at h; omega
    have hlen : (l.set dst v).length = l.length := by simp
    have hstep : (dst + 1) + vs.length ≤ (l.set dst v).length := by
      simp at h ⊢; omega
    rw [writeSeq, ih (l.set dst v) (dst + 1) hstep]
    rw [List.set_eq_take_cons_drop v hd]
    have htl : (l.take dst).length = dst := by
      simp [Nat.min_eq_left (Nat.le_of_lt hd)]
    rw [List.take_append_eq_append_take, List.drop_append_eq_append_drop, htl]
    have h1 : (l.take dst).take (dst + 1) = l.take dst := by
      rw [List.take_take]; congr 1; omega
    have h2 : (l.take dst).drop (dst + 1 + vs.length) = [] := by
      apply List.drop_eq_nil_of_le; omega
    rw [h1, h2]
    have h3 : dst + 1 - dst = 1 := by omega
    have h4 : dst + 1 + vs.length - dst = 1 + vs.length := by omega
    rw [h3, h4]
    simp only [List.take_cons, List.take_zero, List.nil_append]
    have h5 : (v :: l.drop (dst + 1)).drop (1 + vs.length) =
        l.drop (dst + (vs.length + 1)) := by
      have : 1 + vs.length = vs.length + 1 := by omega
      rw [this]
      simp only [List.drop_succ_cons]
      rw [List.drop_drop]
      congr 1; omega
    rw [h5]
    simp

theorem copySlots_eq {α : Type} (l : List α) (src dst cnt : Nat)
    (hsrc : src + cnt ≤ l.length) (hdst : dst + cnt ≤ l.length) :
    copySlots l src dst cnt =
      l.take dst ++ (l.drop src).take cnt ++ l.drop (dst + cnt) := by
  have hlen : ((l.drop src).take cnt).length = cnt := by
    simp; omega
  rw [copySlots, writeSeq_eq _ _ _ (by rw [hlen]; exact hdst), hlen]

theorem fillLoop_eq {α : Type} (k : Nat) (data : List α) (len : Nat) (repl : List α) :
    fillLoop k data len repl =
      (decide (k ≤ repl.length), writeSeq data len (repl.take k),
       len + min k repl.length, repl.drop k) := by
  induction k generalizing data len repl with
  | zero => simp [fillLoop, writeSeq]
  | succ k ih =>
    cases repl with
    | nil => simp [fillLoop, writeSeq]
    | cons x xs =>
      rw [fillLoop, ih]
      simp only [List.length_cons, List.take_cons, List.drop_succ_cons, writeSeq,
        Prod.mk.injEq]
      refine ⟨?_, trivial, ?_, trivial⟩
      · simp [Nat.succ_le_succ_iff]
      · omega

/-! ### The drain-state abstraction: live prefix, preserved tail, invariant -/

/-- Structural invariant of a live `Drain`/`Splice` view: the container's
visible length is at most `tail_start`, and the preserved tail fits in
the capacity. -/
def Drain.inv {α : Type} (d : Drain α) : Prop :=
  d.vec.len ≤ d.tail_start ∧ d.tail_start + d.tail_len ≤ d.vec.data.length

/-- The live elements in front of the gap. -/
def Drain.frontPart {α : Type} (d : Drain α) : List α :=
  d.vec.data.take d.vec.len

/-- The preserved tail: the `tail_len` slots from `tail_start`. -/
def Drain.tailPart {α : Type} (d : Drain α) : List α :=
  (d.vec.data.drop d.tail_start).take d.tail_len

theorem fill_spec {α : Type} (d : Drain α) (repl : List α) :
    d.fill repl =
      (decide (d.tail_start - d.vec.len ≤ repl.length),
       { d with vec :=
          { data := writeSeq d.vec.data d.vec.len (repl.take (d.tail_start - d.vec.len)),
            len := d.vec.len + min (d.tail_start - d.vec.len) repl.length } },
       repl.drop (d.tail_start - d.vec.len)) := by
  rw [Drain.fill, fillLoop_eq]

theorem fill_frontPart {α : Type} (d : Drain α) (repl : List α) (hinv : d.inv) :
    (d.fill repl).2.1.frontPart =
      d.frontPart ++ repl.take (d.tail_start - d.vec.len) := by
  obtain ⟨h1, h2⟩ := hinv
  rw [fill_spec d repl]
  set g := d.tail_start - d.vec.len with hg
  have hvslen : (repl.take g).length = min g repl.length := by simp
  have hbound : d.vec.len + (repl.take g).length ≤ d.vec.data.length := by
    rw [hvslen]; omega
  simp only [Drain.frontPart]
  rw [writeSeq_eq _ _ _ hbound]
  have hlen : (d.vec.data.take d.vec.len ++ repl.take g).length
      = d.vec.len + min g repl.length := by
    simp; omega
  rw [hvslen, List.take_left' hlen]

theorem fill_tailPart {α : Type} (d : Drain α) (repl : List α) (hinv : d.inv) :
    (d.fill repl).2.1.tailPart = d.tailPart := by
  obtain ⟨h1, h2⟩ := hinv
  rw [fill_spec d repl]
  set g := d.tail_start - d.vec.len with hg
  have hvslen : (repl.take g).length = min g repl.length := by simp
  have hbound : d.vec.len + (repl.take g).length ≤ d.vec.data.length := by
    rw [hvslen]; omega
  simp only [Drain.tailPart]
  rw [writeSeq_eq _ _ _ hbound]
  rw [List.drop_append_eq_append_drop, List.drop_append_eq_append_drop]
  have e1 : (d.vec.data.take d.vec.len).drop d.tail_start = [] := by
    apply List.drop_eq_nil_of_le; simp; omega
  have e2 : (repl.take g).drop (d.tail_start - (d.vec.data.take d.vec.len).length)
      = [] := by
    apply List.drop_eq_nil_of_le
    rw [hvslen]; simp; omega
  rw [e1, e2]
  simp only [List.nil_append]
  congr 1
  rw [List.drop_drop]
  congr 1
  rw [hvslen]; simp; omega

theorem fill_inv {α : Type} (d : Drain α) (repl : List α) (hinv : d.inv) :
    (d.fill repl).2.1.inv := by
  obtain ⟨h1, h2⟩ := hinv
  rw [fill_spec d repl]
  constructor
  · simp only []
    omega
  · simpa [writeSeq_length] using h2

theorem fill_fields {α : Type} (d : Drain α) (repl : List α) :
    (d.fill repl).2.1.tail_start = d.tail_start ∧
    (d.fill repl).2.1.tail_len = d.tail_len ∧
    (d.fill repl).2.1.vec.len
      = d.vec.len + min (d.tail_start - d.vec.len) repl.length ∧
    (d.fill repl).2.1.vec.data.length = d.vec.data.length ∧
    (d.fill repl).1 = decide (d.tail_start - d.vec.len ≤ repl.length) ∧
    (d.fill repl).2.2 = repl.drop (d.tail_start - d.vec.len) := by
  rw [fill_spec d repl]
  refine ⟨rfl, rfl, rfl, ?_, rfl, rfl⟩
  simp [writeSeq_length]

theorem tryReserve_some {α : Type} [Inhabited α] (v : RawVector α)
    (alloc : Nat → Bool) (total : Nat) (halloc : alloc total = true) :
    v.tryReserve alloc total =
      some { v with
        data := v.data ++ List.replicate (total - v.data.length) default } := by
  rw [RawVector.tryReserve]
  split
  · next h =>
    have : total - v.data.length = 0 := by omega
    simp [this]
  · simp [halloc]

theorem tryReserve_fail {α : Type} [Inhabited α] (v : RawVector α)
    (alloc : Nat → Bool) (total : Nat) (hcap : v.data.length < total)
    (halloc : alloc total = false) :
    v.tryReserve alloc total = none := by
  rw [RawVector.tryReserve]
  split
  · omega
  · simp [halloc]

theorem move_tail_spec {α : Type} [Inhabited α] (d : Drain α) (alloc : Nat → Bool)
    (n : Nat) (hinv : d.inv)
    (halloc : alloc (d.tail_start + d.tail_len + n) = true) :
    (d.move_tail alloc n).1 = true ∧
    (d.move_tail alloc n).2.tail_start = d.tail_start + n ∧
    (d.move_tail alloc n).2.tail_len = d.tail_len ∧
    (d.move_tail alloc n).2.front = d.front ∧
    (d.move_tail alloc n).2.back = d.back ∧
    (d.move_tail alloc n).2.vec.len = d.vec.len ∧
    (d.move_tail alloc n).2.vec.data.length
      = max d.vec.data.length (d.tail_start + d.tail_len + n) ∧
    (d.move_tail alloc n).2.frontPart = d.frontPart ∧
    (d.move_tail alloc n).2.tailPart = d.tailPart ∧
    (d.move_tail alloc n).2.inv := by
  obtain ⟨h1, h2⟩ := hinv
  rw [Drain.move_tail]
  rw [tryReserve_some _ _ _ halloc]
  set cap := d.vec.data.length with hcap
  set total := d.tail_start + d.tail_len + n with htotal
  set data1 := d.vec.data ++ List.replicate (total - cap) default with hdata1
  have hlen1 : data1.length = max cap total := by
    simp [hdata1]; omega
  have hsrc : d.tail_start + d.tail_len ≤ data1.length := by
    rw [hlen1]; omega
  have hdst : (d.tail_start + n) + d.tail_len ≤ data1.length := by
    rw [hlen1]; omega
  simp only []
  set data2 := copySlots data1 d.tail_start (d.tail_start + n) d.tail_len with hdata2
  have hc : data2 = data1.take (d.tail_start + n) ++
      (data1.drop d.tail_start).take d.tail_len ++
      data1.drop ((d.tail_start + n) + d.tail_len) := by
    rw [hdata2, copySlots_eq _ _ _ _ hsrc hdst]
  have hlen2 : data2.length = max cap total := by
    rw [hc]
    simp
    omega
  have hfp : data2.take d.vec.len = d.vec.data.take d.vec.len := by
    rw [hc]
    rw [List.take_append_eq_append_take]
    have e1 : ((data1.take (d.tail_start + n)).take d.vec.len)
        = data1.take d.vec.len := by
      rw [List.take_take]; congr 1; omega
    have e2 : d.vec.len - (data1.take (d.tail_start + n) ++
        (data1.drop d.tail_start).take d.tail_len).length = 0 := by
      simp; omega
    rw [List.take_append_eq_append_take, e1, e2]
    have e3 : data1.take d.vec.len = d.vec.data.take d.vec.len := by
      rw [hdata1, List.take_append_eq_append_take]
      have : d.vec.len - d.vec.data.length = 0 := by omega
      simp [this]
    simp [e3]
    omega
  have htp : (data2.drop (d.tail_start + n)).take d.tail_len
      = (d.vec.data.drop d.tail_start).take d.tail_len := by
    rw [hc]
    rw [List.drop_append_eq_append_drop, List.drop_append_eq_append_drop]
    have e1 : (data1.take (d.tail_start + n)).drop (d.tail_start + n) = [] := by
      apply List.drop_eq_nil_of_le; simp
    have e2 : d.tail_start + n - (data1.take (d.tail_start + n)).length = 0 := by
      simp; omega
    rw [e1, e2]
    simp only [List.drop_zero, List.nil_append]
    rw [List.take_append_eq_append_take]
    have e3 : ((data1.drop d.tail_start).take d.tail_len).take d.tail_len
        = (data1.drop d.tail_start).take d.tail_len := by
      rw [List.take_take]; simp
    have e4 : d.tail_len - ((data1.drop d.tail_start).take d.tail_len).length
        = 0 := by
      simp; omega
    rw [e3, e4]
    have e5 : (data1.drop d.tail_start).take d.tail_len
        = (d.vec.data.drop d.tail_start).take d.tail_len := by
      rw [hdata1, List.drop_append_eq_append_drop]
      have : d.tail_start - d.vec.data.length = 0 := by omega
      rw [this]
      simp only [List.drop_zero]
      rw [List.take_append_eq_append_take]
      have : d.tail_len - (d.vec.data.drop d.tail_start).length = 0 := by
        simp; omega
      simp [this]
      omega
    simp [e5]
  refine ⟨trivial, trivial, trivial, trivial, trivial, trivial, hlen2, ?_, ?_, ?_⟩
  · simpa [Drain.frontPart] using hfp
  · simpa [Drain.tailPart] using htp
  · constructor
    · simp only []
      omega
    · simp only []
      rw [hlen2]
      omega

theorem dropGuardRun_eq {α : Type} [Inhabited α] (ts tl : Nat) (v : RawVector α) :
    dropGuardRun ts tl v =
      if 0 < tl then
        { data := if ts ≠ v.len then copySlots v.data ts v.len tl else v.data,
          len := v.len + tl }
      else v := rfl

theorem dropGuardRun_spec {α : Type} [Inhabited α] (ts tl : Nat) (v : RawVector α)
    (h1 : v.len ≤ ts) (h2 : ts + tl ≤ v.data.length) :
    (dropGuardRun ts tl v).len = v.len + tl ∧
    (dropGuardRun ts tl v).live = v.data.take v.len ++ (v.data.drop ts).take tl := by
  rw [dropGuardRun_eq]
  by_cases htl : 0 < tl
  · rw [if_pos htl]
    by_cases hts : ts = v.len
    · subst hts
      rw [if_neg (by simp)]
      refine ⟨rfl, ?_⟩
      simp only [RawVector.live]
      exact List.take_add _ _ _
    · rw [if_pos hts]
      refine ⟨rfl, ?_⟩
      simp only [RawVector.live]
      rw [copySlots_eq _ _ _ _ h2 (by omega)]
      have hlen : (v.data.take v.len ++ (v.data.drop ts).take tl).length
          = v.len + tl := by
        simp; omega
      exact List.take_left' hlen
  · rw [if_neg htl]
    have htl0 : tl = 0 := by omega
    subst htl0
    simp [RawVector.live]

/-- The container state produced by `Drain::drop` is the guard's
restoration in every case. -/
theorem drain_drop_vec {α : Type} [Inhabited α] (panics : α → Bool) (d : Drain α) :
    (d.drop panics).2 = dropGuardRun d.tail_start d.tail_len d.vec := by
  rw [Drain.drop]
  split <;> rfl

theorem drain_drop_release {α : Type} [Inhabited α] (panics : α → Bool)
    (d : Drain α) (hinv : d.inv) :
    (d.drop panics).2.len = d.vec.len + d.tail_len ∧
    (d.drop panics).2.live = d.frontPart ++ d.tailPart := by
  obtain ⟨h1, h2⟩ := hinv
  rw [drain_drop_vec]
  exact dropGuardRun_spec d.tail_start d.tail_len d.vec h1 h2

theorem extend_spec {α : Type} (v : RawVector α) (xs : List α)
    (h : v.len ≤ v.data.length) :
    (v.extend xs).live = v.live ++ xs ∧ (v.extend xs).len = v.len + xs.length := by
  refine ⟨?_, rfl⟩
  simp only [RawVector.extend, RawVector.live]
  have hlen : (v.data.take v.len ++ xs).length = v.len + xs.length := by
    simp; omega
  rw [List.take_left' hlen]

/-! ### Correctness of the splice passes -/

theorem growthPass_spec {α : Type} [Inhabited α] (hint : List α → Nat)
    (alloc : Nat → Bool) (d : Drain α) (rest : List α) (hinv : d.inv)
    (hgap : d.vec.len = d.tail_start) (halloc : ∀ m, alloc m = true) :
    ∃ d2 rest2 f2, growthPass hint alloc d rest = some (d2, rest2, f2) ∧
      d2.inv ∧ d2.tail_len = d.tail_len ∧ d2.tailPart = d.tailPart ∧
      d2.frontPart ++ rest2 = d.frontPart ++ rest ∧
      d2.vec.len + rest2.length = d.vec.len + rest.length ∧
      (f2 = true → d2.vec.len = d2.tail_start) ∧
      (f2 = false → rest2 = []) := by
  rw [growthPass]
  by_cases hlb : 0 < hint rest
  · rw [if_pos hlb]
    obtain ⟨hflag, hts, htl, _, _, hlen, hcap, hfp, htp, hinv2⟩ :=
      move_tail_spec d alloc (hint rest) hinv (halloc _)
    have hmt : d.move_tail alloc (hint rest)
        = (true, (d.move_tail alloc (hint rest)).2) := by
      rw [← hflag]
    rw [hmt]
    set dm := (d.move_tail alloc (hint rest)).2 with hdm
    have hgapm : dm.tail_start - dm.vec.len = hint rest := by
      rw [hts, hlen, hgap]; omega
    refine ⟨(dm.fill rest).2.1, (dm.fill rest).2.2, (dm.fill rest).1, rfl,
      fill_inv dm rest hinv2, ?_, ?_, ?_, ?_, ?_, ?_⟩
    · obtain ⟨_, h2, _⟩ := fill_fields dm rest
      rw [h2, htl]
    · rw [fill_tailPart dm rest hinv2, htp]
    · rw [fill_frontPart dm rest hinv2, hfp, hgapm]
      obtain ⟨_, _, _, _, _, h6⟩ := fill_fields dm rest
      rw [h6, hgapm]
      rw [List.append_assoc]
      congr 1
      exact List.take_append_drop _ _
    · obtain ⟨_, _, h3, _, _, h6⟩ := fill_fields dm rest
      rw [h3, h6, hgapm, hlen]
      simp
      omega
    · intro hf
      obtain ⟨h1f, _, h3, _, h5, _⟩ := fill_fields dm rest
      rw [h5, hgapm] at hf
      have hle : hint rest ≤ rest.length := by simpa using hf
      rw [h3, h1f, hgapm, hts, hlen, hgap]
      omega
    · intro hf
      obtain ⟨_, _, _, _, h5, h6⟩ := fill_fields dm rest
      rw [h5, hgapm] at hf
      have hgt : rest.length < hint rest := by simpa using hf
      rw [h6, hgapm]
      exact List.drop_eq_nil_of_le (by omega)
  · rw [if_neg hlb]
    refine ⟨d, rest, true, rfl, hinv, rfl, rfl, rfl, rfl, fun _ => hgap,
      fun h => by cases h⟩

theorem collectPass_spec {α : Type} [Inhabited α] (alloc : Nat → Bool)
    (d : Drain α) (collected : List α) (hinv : d.inv)
    (hgap : d.vec.len = d.tail_start) (halloc : ∀ m, alloc m = true) :
    ∃ r, collectPass alloc d collected = some r ∧
      r.live = d.frontPart ++ collected ++ d.tailPart ∧
      r.len = d.vec.len + collected.length + d.tail_len := by
  rw [collectPass]
  by_cases hc : 0 < collected.length
  · rw [if_pos hc]
    obtain ⟨hflag, hts, htl, _, _, hlen, hcap, hfp, htp, hinv2⟩ :=
      move_tail_spec d alloc collected.length hinv (halloc _)
    have hmt : d.move_tail alloc collected.length
        = (true, (d.move_tail alloc collected.length).2) := by
      rw [← hflag]
    rw [hmt]
    set dm := (d.move_tail alloc collected.length).2 with hdm
    have hgapm : dm.tail_start - dm.vec.len = collected.length := by
      rw [hts, hlen, hgap]; omega
    have hinv3 := fill_inv dm collected hinv2
    obtain ⟨hrl, hrv⟩ :=
      drain_drop_release (fun _ => false) (dm.fill collected).2.1 hinv3
    refine ⟨_, rfl, ?_, ?_⟩
    · rw [hrv, fill_frontPart dm collected hinv2,
        fill_tailPart dm collected hinv2, hfp, htp, hgapm, List.take_length]
    · rw [hrl]
      obtain ⟨_, h2, h3, _⟩ := fill_fields dm collected
      rw [h2, h3, htl, hgapm, hlen, hgap]
      omega
  · rw [if_neg hc]
    have hc0 : collected = [] := by
      cases collected with
      | nil => rfl
      | cons x xs => simp at hc
    subst hc0
    obtain ⟨hrl, hrv⟩ := drain_drop_release (fun _ => false) d hinv
    refine ⟨_, rfl, ?_, ?_⟩
    · rw [hrv]; simp
    · rw [hrl]; simp

theorem spliceCore_spec {α : Type} [Inhabited α] (hint : List α → Nat)
    (alloc : Nat → Bool) (d : Drain α) (repl : List α) (hinv : d.inv)
    (halloc : ∀ m, alloc m = true) :
    ∃ r, spliceCore hint alloc d repl = some r ∧
      r.live = d.frontPart ++ repl ++ d.tailPart ∧
      r.len = d.vec.len + repl.length + d.tail_len := by
  have hcap : d.vec.len ≤ d.vec.data.length := by
    obtain ⟨h1, h2⟩ := hinv; omega
  rw [spliceCore]
  by_cases htl0 : d.tail_len = 0
  · rw [if_pos htl0]
    obtain ⟨hel, hen⟩ := extend_spec d.vec repl hcap
    set v1 := d.vec.extend repl with hv1
    have hvec : (Drain.drop (fun _ => false) { d with vec := v1 }).2 = v1 := by
      rw [drain_drop_vec]
      simp [dropGuardRun, htl0]
    refine ⟨v1, ?_, ?_, ?_⟩
    · show some (Drain.drop (fun _ => false) { d with vec := v1 }).2 = some v1
      rw [hvec]
    · rw [hel]
      simp [Drain.frontPart, Drain.tailPart, RawVector.live, htl0]
    · rw [hen, htl0]
      omega
  · rw [if_neg htl0]
    set g := d.tail_start - d.vec.len with hg
    have hinv1 := fill_inv d repl hinv
    obtain ⟨hts1, htl1, hlen1, hcap1, hflag1, hrest1⟩ := fill_fields d repl
    by_cases hfull : g ≤ repl.length
    · have hflag : (d.fill repl).1 = true := by rw [hflag1, ← hg]; simp [hfull]
      have hgap1 : (d.fill repl).2.1.vec.len = (d.fill repl).2.1.tail_start := by
        rw [hlen1, hts1, ← hg]
        obtain ⟨hi1, _⟩ := hinv
        omega
      obtain ⟨d2, rest2, f2, hgp, hinv2, htl2, htp2, hfr2, hlen2, hf2t, hf2f⟩ :=
        growthPass_spec hint alloc (d.fill repl).2.1 (d.fill repl).2.2 hinv1
          hgap1 halloc
      simp only [hflag, Bool.true_eq_false, reduceIte, hgp]
      by_cases hf2 : f2 = false
      · simp only [hf2, reduceIte]
        obtain ⟨hrl, hrv⟩ := drain_drop_release (fun _ => false) d2 hinv2
        have hrest2 : rest2 = [] := hf2f hf2
        refine ⟨_, rfl, ?_, ?_⟩
        · rw [hrv]
          rw [htp2, fill_tailPart d repl hinv]
          have : d2.frontPart = d.frontPart ++ repl := by
            have := hfr2
            rw [hrest2, List.append_nil, fill_frontPart d repl hinv, ← hg] at this
            rw [this, List.append_assoc]
            congr 1
            rw [hrest1, ← hg]
            exact List.take_append_drop _ _
          rw [this, List.append_assoc]
        · rw [hrl, htl2, htl1]
          have := hlen2
          rw [hrest2, List.length_nil, hlen1, hrest1, ← hg] at this
          simp at this
          omega
      · have hf2t' : f2 = true := by
          cases f2
          · exact absurd rfl hf2
          · rfl
        simp only [hf2t', Bool.true_eq_false, reduceIte]
        obtain ⟨r, hr, hrv, hrl⟩ :=
          collectPass_spec alloc d2 rest2 hinv2 (hf2t hf2t') halloc
        refine ⟨r, hr, ?_, ?_⟩
        · rw [hrv, hfr2]
          rw [fill_frontPart d repl hinv, htp2, fill_tailPart d repl hinv, hrest1]
          congr 1
          rw [List.append_assoc, List.take_append_drop]
        · rw [hrl]
          have hsum := hlen2
          rw [hlen1, hrest1, ← hg] at hsum
          rw [htl2, htl1]
          simp at hsum
          omega
    · have hflag : (d.fill repl).1 = false := by
        rw [hflag1, ← hg]
        simp
        omega
      simp only [hflag, reduceIte]
      obtain ⟨hrl, hrv⟩ := drain_drop_release (fun _ => false) (d.fill repl).2.1 hinv1
      refine ⟨_, rfl, ?_, ?_⟩
      · rw [hrv, fill_frontPart d repl hinv, fill_tailPart d repl hinv, ← hg]
        have : repl.take g = repl := List.take_of_length_le (by omega)
        rw [this, List.append_assoc]
      · rw [hrl, hlen1, htl1, ← hg]
        have : min g repl.length = repl.length := by omega
        rw [this]

/-! ### The iterator cursor: consumption lemmas -/

/-- The not-yet-yielded removed elements under the cursor. -/
def cursorSlice {α : Type} (d : Drain α) : List α :=
  (d.vec.data.drop d.front).take (d.back - d.front)

theorem consumeFront_fields {α : Type} [Inhabited α] (k : Nat) (d : Drain α) :
    (Drain.consumeFront k d).2.vec = d.vec ∧
    (Drain.consumeFront k d).2.tail_start = d.tail_start ∧
    (Drain.consumeFront k d).2.tail_len = d.tail_len ∧
    (Drain.consumeFront k d).2.back = d.back := by
  induction k generalizing d with
  | zero => exact ⟨rfl, rfl, rfl, rfl⟩
  | succ k ih =>
    rw [Drain.consumeFront, Drain.next]
    by_cases h : d.front < d.back
    · rw [if_pos h]
      simp only []
      exact ih { d with front := d.front + 1 }
    · rw [if_neg h]
      exact ⟨rfl, rfl, rfl, rfl⟩

theorem consumeSeq_fields {α : Type} [Inhabited α] (bs : List Bool) (d : Drain α) :
    (Drain.consumeSeq bs d).2.vec = d.vec ∧
    (Drain.consumeSeq bs d).2.tail_start = d.tail_start ∧
    (Drain.consumeSeq bs d).2.tail_len = d.tail_len := by
  induction bs generalizing d with
  | nil => exact ⟨rfl, rfl, rfl⟩
  | cons b bs ih =>
    rw [Drain.consumeSeq]
    by_cases hb : b
    · subst hb
      rw [Drain.next]
      by_cases h : d.front < d.back
      · rw [if_pos h]
        simp only []
        exact ih { d with front := d.front + 1 }
      · rw [if_neg h]
        simp only []
        exact ih d
    · have hb' : b = false := by cases b; rfl; exact absurd rfl hb
      subst hb'
      rw [Drain.next_back]
      by_cases h : d.front < d.back
      · rw [if_pos h]
        simp only []
        exact ih { d with back := d.back - 1 }
      · rw [if_neg h]
        simp only []
        exact ih d

theorem consumeSeq_perm {α : Type} [Inhabited α] (bs : List Bool) (d : Drain α)
    (hfb : d.front ≤ d.back) (hbd : d.back ≤ d.vec.data.length) :
    ((Drain.consumeSeq bs d).1 ++ cursorSlice (Drain.consumeSeq bs d).2).Perm
      (cursorSlice d) := by
  induction bs generalizing d with
  | nil => simp [Drain.consumeSeq]
  | cons b bs ih =>
    rw [Drain.consumeSeq]
    by_cases hb : b
    · subst hb
      simp only [reduceIte]
      rw [Drain.next]
      by_cases h : d.front < d.back
      · rw [if_pos h]
        simp only []
        set d1 : Drain α := { d with front := d.front + 1 } with hd1
        have hperm := ih d1 (by simp [hd1]; omega) (by simp [hd1]; omega)
        have hslice : cursorSlice d = d.vec.data.getD d.front default ::
            cursorSlice d1 := by
          rw [cursorSlice, cursorSlice, hd1]
          simp only []
          have hfl : d.front < d.vec.data.length := by omega
          rw [List.drop_eq_getElem_cons hfl]
          have hbf : d.back - d.front = (d.back - (d.front + 1)) + 1 := by omega
          rw [hbf, List.take_succ_cons]
          congr 1
          rw [List.getD_eq_getElem?_getD]
          simp [hfl]
        rw [hslice]
        simpa using hperm.cons (d.vec.data.getD d.front default)
      · rw [if_neg h]
        simp only []
        exact ih d hfb hbd
    · have hb' : b = false := by cases b; rfl; exact absurd rfl hb
      subst hb'
      simp only [Bool.false_eq_true, reduceIte]
      rw [Drain.next_back]
      by_cases h : d.front < d.back
      · rw [if_pos h]
        simp only []
        set d1 : Drain α := { d with back := d.back - 1 } with hd1
        have hperm := ih d1 (by simp [hd1]; omega) (by simp [hd1]; omega)
        have hslice : cursorSlice d =
            cursorSlice d1 ++ [d.vec.data.getD (d.back - 1) default] := by
          rw [cursorSlice, cursorSlice, hd1]
          simp only []
          have hbf : d.back - d.front = (d.back - 1 - d.front) + 1 := by omega
          rw [hbf, List.take_succ]
          congr 1
          have hget : (d.vec.data.drop d.front)[d.back - 1 - d.front]?
              = some (d.vec.data.getD (d.back - 1) default) := by
            rw [List.getElem?_drop]
            have he : d.front + (d.back - 1 - d.front) = d.back - 1 := by omega
            rw [he, List.getD_eq_getElem?_getD]
            have hlt : d.back - 1 < d.vec.data.length := by omega
            simp [hlt]
          rw [hget]
          rfl
        rw [hslice]
        exact ((hperm.cons (d.vec.data.getD (d.back - 1) default)).trans
          (List.perm_append_singleton _ _).symm)
      · rw [if_neg h]
        simp only []
        exact ih d hfb hbd

theorem consumeSeq_exhausted {α : Type} [Inhabited α] (bs : List Bool) (d : Drain α)
    (h : ¬ d.front < d.back) : Drain.consumeSeq bs d = ([], d) := by
  induction bs with
  | nil => rfl
  | cons b bs ih =>
    rw [Drain.consumeSeq]
    by_cases hb : b
    · subst hb
      rw [Drain.next, if_neg h]
      simp only []
      exact ih
    · have hb' : b = false := by cases b; rfl; exact absurd rfl hb
      subst hb'
      rw [Drain.next_back, if_neg h]
      simp only []
      exact ih

theorem spliceConsume_delegates {α : Type} [Inhabited α] (bs : List Bool)
    (s : Splice α) :
    (Splice.consumeSeq bs s).1 = (Drain.consumeSeq bs s.drain).1 ∧
    (Splice.consumeSeq bs s).2.drain = (Drain.consumeSeq bs s.drain).2 ∧
    (Splice.consumeSeq bs s).2.replace_with = s.replace_with := by
  induction bs generalizing s with
  | nil => exact ⟨rfl, rfl, rfl⟩
  | cons b bs ih =>
    rw [Splice.consumeSeq, Drain.consumeSeq]
    by_cases hb : b
    · subst hb
      simp only [reduceIte, Splice.next]
      cases s.drain.next with
      | mk o d1 =>
        cases o with
        | none =>
          simp only []
          exact ih { s with drain := d1 }
        | some x =>
          simp only []
          obtain ⟨i1, i2, i3⟩ := ih { s with drain := d1 }
          exact ⟨by rw [i1], by rw [i2], i3⟩
    · have hb' : b = false := by cases b; rfl; exact absurd rfl hb
      subst hb'
      simp only [Bool.false_eq_true, reduceIte, Splice.next_back]
      cases s.drain.next_back with
      | mk o d1 =>
        cases o with
        | none =>
          simp only []
          exact ih { s with drain := d1 }
        | some x =>
          simp only []
          obtain ⟨i1, i2, i3⟩ := ih { s with drain := d1 }
          exact ⟨by rw [i1], by rw [i2], i3⟩

/-! ### Facts about the drain construction -/

theorem drain_inv {α : Type} (v : RawVector α) (s e : Nat) (hse : s ≤ e)
    (hev : e ≤ v.len) (hcap : v.len ≤ v.data.length) : (v.drain s e).inv := by
  refine ⟨?_, ?_⟩ <;> simp [RawVector.drain, Drain.inv] <;> omega

theorem drain_frontPart {α : Type} (v : RawVector α) (s e : Nat)
    (hsv : s ≤ v.len) : (v.drain s e).frontPart = v.live.take s := by
  simp [RawVector.drain, Drain.frontPart, RawVector.live, List.take_take,
    Nat.min_eq_left hsv]

theorem drain_tailPart {α : Type} (v : RawVector α) (s e : Nat) :
    (v.drain s e).tailPart = v.live.drop e := by
  simp only [RawVector.drain, Drain.tailPart, RawVector.live]
  exact (List.drop_take _ _ _).symm

theorem drop_after_consumeFront {α : Type} [Inhabited α] (k : Nat) (d : Drain α)
    (panics : α → Bool) :
    ((Drain.consumeFront k d).2.drop panics).2 = (d.drop panics).2 := by
  rw [drain_drop_vec, drain_drop_vec]
  obtain ⟨f1, f2, f3, _⟩ := consumeFront_fields k d
  rw [f1, f2, f3]

theorem getD_drop_take {α : Type} [Inhabited α] (l : List α) (m c j : Nat)
    (hj : j < c) : ((l.drop m).take c).getD j default = l.getD (m + j) default := by
  rw [List.getD_eq_getElem?_getD, List.getD_eq_getElem?_getD, List.getElem?_take,
    if_pos hj, List.getElem?_drop]

/-! ### The claims -/

/-- C1: for every `Drain` over a container with a non-empty tail, `release`
(`Drain::drop`) performs the tail restoration on every exit path: whatever
the abort behaviour of the destructors of the `drop_len` not-yet-yielded
elements, the `DropGuard` copies the `tail_len` tail elements down to the
container's current length and sets the length to
`current_length + tail_len`; the copy is skipped when `tail_start` equals
the current length. -/
theorem drain_release_tail_restoration {α : Type} [Inhabited α] (d : Drain α)
    (panics : α → Bool) (h1 : d.vec.len ≤ d.tail_start)
    (h2 : d.tail_start + d.tail_len ≤ d.vec.data.length) (htl : 0 < d.tail_len) :
    (d.drop panics).2.len = d.vec.len + d.tail_len ∧
    (∀ j, j < d.tail_len →
      (d.drop panics).2.data.getD (d.vec.len + j) default
        = d.vec.data.getD (d.tail_start + j) default) ∧
    (d.tail_start = d.vec.len → (d.drop panics).2.data = d.vec.data) := by
  rw [drain_drop_vec, dropGuardRun_eq, if_pos htl]
  by_cases hts : d.tail_start = d.vec.len
  · rw [if_neg (by simpa using hts)]
    refine ⟨rfl, ?_, fun _ => rfl⟩
    intro j hj
    simp only []
    rw [hts]
  · rw [if_pos hts]
    refine ⟨rfl, ?_, fun h => absurd h hts⟩
    intro j hj
    simp only []
    rw [copySlots_eq _ _ _ _ (by omega) (by omega)]
    rw [List.getD_eq_getElem?_getD]
    have hl1 : (d.vec.data.take d.vec.len
        ++ (d.vec.data.drop d.tail_start).take d.tail_len).length
        = d.vec.len + d.tail_len := by
      simp; omega
    rw [List.getElem?_append, if_pos (by rw [hl1]; omega)]
    have hl2 : (d.vec.data.take d.vec.len).length = d.vec.len := by
      simp; omega
    rw [List.getElem?_append_right (by rw [hl2]; omega), hl2]
    have hj' : d.vec.len + j - d.vec.len = j := by omega
    rw [hj', List.getElem?_take, if_pos hj, List.getElem?_drop,
      ← List.getD_eq_getElem?_getD]

/-- Witness for C1 at a concrete drain state with a panicking element. -/
theorem drain_release_tail_restoration_witness :
    ((⟨3, 2, 1, 3, ⟨[10, 11, 12, 13, 14], 1⟩⟩ : Drain Nat).drop
        (fun x => x = 11)).2.len = 1 + 2 ∧
    (∀ j, j < 2 →
      ((⟨3, 2, 1, 3, ⟨[10, 11, 12, 13, 14], 1⟩⟩ : Drain Nat).drop
          (fun x => x = 11)).2.data.getD (1 + j) default
        = [10, 11, 12, 13, 14].getD (3 + j) default) ∧
    (3 = 1 →
      ((⟨3, 2, 1, 3, ⟨[10, 11, 12, 13, 14], 1⟩⟩ : Drain Nat).drop
          (fun x => x = 11)).2.data = [10, 11, 12, 13, 14]) :=
  drain_release_tail_restoration (⟨3, 2, 1, 3, ⟨[10, 11, 12, 13, 14], 1⟩⟩ :
    Drain Nat) (fun x => x = 11) (by decide) (by decide) (by decide)

/-- C2: draining `[s, e)` out of a container of length `L` and releasing
the view — after consuming any number `k` of its elements — leaves length
`L - (e - s)` and the original contents with `[s, e)` removed, order
preserved; in the concrete scenario, draining `[1, 3)` of `[a,b,c,d,e]`
yields `b` then `c` forward (or `c` then `b` backward) and leaves
`[a, d, e]`. -/
theorem drain_compaction {α : Type} [Inhabited α] (v : RawVector α) (s e k : Nat)
    (hse : s ≤ e) (hev : e ≤ v.len) (hcap : v.len ≤ v.data.length) :
    (((Drain.consumeFront k (v.drain s e)).2.drop (fun _ => false)).2.len
        = v.len - (e - s) ∧
      ((Drain.consumeFront k (v.drain s e)).2.drop (fun _ => false)).2.live
        = v.live.take s ++ v.live.drop e) ∧
    (Drain.consumeFront 2
        ((⟨['a', 'b', 'c', 'd', 'e'], 5⟩ : RawVector Char).drain 1 3)).1
      = ['b', 'c'] ∧
    (Drain.consumeSeq [false, false]
        ((⟨['a', 'b', 'c', 'd', 'e'], 5⟩ : RawVector Char).drain 1 3)).1
      = ['c', 'b'] ∧
    ((((⟨['a', 'b', 'c', 'd', 'e'], 5⟩ : RawVector Char).drain 1 3).drop
        (fun _ => false)).2).live = ['a', 'd', 'e'] := by
  refine ⟨?_, by rfl, by rfl, by rfl⟩
  rw [drop_after_consumeFront]
  obtain ⟨hl, hv⟩ := drain_drop_release (fun _ => false) (v.drain s e)
    (drain_inv v s e hse hev hcap)
  constructor
  · rw [hl]
    simp [RawVector.drain]
    omega
  · rw [hv, drain_frontPart v s e (by omega), drain_tailPart]

/-- Witness for C2 on the concrete scenario. -/
theorem drain_compaction_witness :
    (((Drain.consumeFront 2
          ((⟨['a', 'b', 'c', 'd', 'e'], 5⟩ : RawVector Char).drain 1 3)).2.drop
          (fun _ => false)).2.len = 5 - (3 - 1) ∧
      ((Drain.consumeFront 2
          ((⟨['a', 'b', 'c', 'd', 'e'], 5⟩ : RawVector Char).drain 1 3)).2.drop
          (fun _ => false)).2.live
        = (⟨['a', 'b', 'c', 'd', 'e'], 5⟩ : RawVector Char).live.take 1
          ++ (⟨['a', 'b', 'c', 'd', 'e'], 5⟩ : RawVector Char).live.drop 3) ∧
      (Drain.consumeFront 2
          ((⟨['a', 'b', 'c', 'd', 'e'], 5⟩ : RawVector Char).drain 1 3)).1
        = ['b', 'c'] ∧
      (Drain.consumeSeq [false, false]
          ((⟨['a', 'b', 'c', 'd', 'e'], 5⟩ : RawVector Char).drain 1 3)).1
        = ['c', 'b'] ∧
      ((((⟨['a', 'b', 'c', 'd', 'e'], 5⟩ : RawVector Char).drain 1 3).drop
          (fun _ => false)).2).live = ['a', 'd', 'e'] :=
  drain_compaction (⟨['a', 'b', 'c', 'd', 'e'], 5⟩ : RawVector Char) 1 3 2
    (by decide) (by decide) (by decide)

/-- C8: consuming `k` elements from a `Drain` and then releasing it gives
the same final container as consuming none and releasing. -/
theorem drain_consume_then_release_equiv {α : Type} [Inhabited α] (v : RawVector α)
    (s e k : Nat) (hse : s ≤ e) (hev : e ≤ v.len)
    (hcap : v.len ≤ v.data.length) (hk : k ≤ e - s) :
    ((Drain.consumeFront k (v.drain s e)).2.drop (fun _ => false)).2
      = ((Drain.consumeFront 0 (v.drain s e)).2.drop (fun _ => false)).2 := by
  rw [drop_after_consumeFront, drop_after_consumeFront]

/-- Witness for C8. -/
theorem drain_consume_then_release_equiv_witness :
    ((Drain.consumeFront 1
        ((⟨[0, 1, 2, 3], 4⟩ : RawVector Nat).drain 1 3)).2.drop
        (fun _ => false)).2
      = ((Drain.consumeFront 0
        ((⟨[0, 1, 2, 3], 4⟩ : RawVector Nat).drain 1 3)).2.drop
        (fun _ => false)).2 :=
  drain_consume_then_release_equiv (⟨[0, 1, 2, 3], 4⟩ : RawVector Nat) 1 3 1
    (by decide) (by decide) (by decide) (by decide)

/-- C5: a drain consumed to exhaustion conserves elements: the multiset
yielded by the `next`/`next_back` pulls plus the multiset remaining in
the container after release equals the original container's multiset. -/
theorem drain_element_conservation {α : Type} [Inhabited α] (v : RawVector α)
    (s e : Nat) (bs : List Bool) (hse : s ≤ e) (hev : e ≤ v.len)
    (hcap : v.len ≤ v.data.length)
    (hdone : (Drain.consumeSeq bs (v.drain s e)).2.front
      = (Drain.consumeSeq bs (v.drain s e)).2.back) :
    (↑(Drain.consumeSeq bs (v.drain s e)).1 +
        ↑((Drain.consumeSeq bs (v.drain s e)).2.drop (fun _ => false)).2.live
      : Multiset α) = ↑v.live := by
  set d0 := v.drain s e with hd0
  have hfb : d0.front ≤ d0.back := by simp [hd0, RawVector.drain]; omega
  have hbd : d0.back ≤ d0.vec.data.length := by
    simp [hd0, RawVector.drain]; omega
  have hperm := consumeSeq_perm bs d0 hfb hbd
  have hslice0 : cursorSlice d0 = (v.data.drop s).take (e - s) := by
    simp [cursorSlice, hd0, RawVector.drain]
  have hslice1 : cursorSlice (Drain.consumeSeq bs d0).2 = [] := by
    rw [cursorSlice, hdone]
    simp
  rw [hslice0, hslice1, List.append_nil] at hperm
  obtain ⟨f1, f2, f3⟩ := consumeSeq_fields bs d0
  have hrel : ((Drain.consumeSeq bs d0).2.drop (fun _ => false)).2
      = (d0.drop (fun _ => false)).2 := by
    rw [drain_drop_vec, drain_drop_vec, f1, f2, f3]
  obtain ⟨hl, hv⟩ := drain_drop_release (fun _ => false) d0
    (drain_inv v s e hse hev hcap)
  rw [hrel, hv, drain_frontPart v s e (by omega), drain_tailPart]
  rw [← Multiset.coe_add]
  apply Multiset.coe_eq_coe.mpr
  have h1 : v.live.take s = v.data.take s := by
    rw [RawVector.live, List.take_take]
    congr 1
    omega
  have h2 : v.live.drop e = (v.data.drop e).take (v.len - e) := by
    rw [RawVector.live]
    exact List.drop_take _ _ _
  have hsplit : v.live = v.data.take s ++ (v.data.drop s).take (e - s)
      ++ (v.data.drop e).take (v.len - e) := by
    have h3 : v.data.take e = v.data.take s ++ (v.data.drop s).take (e - s) := by
      have he : e = s + (e - s) := by omega
      calc v.data.take e = v.data.take (s + (e - s)) := by rw [← he]
        _ = v.data.take s ++ (v.data.drop s).take (e - s) := List.take_add _ _ _
    have h4 : v.data.take v.len
        = v.data.take e ++ (v.data.drop e).take (v.len - e) := by
      have hL : v.len = e + (v.len - e) := by omega
      calc v.data.take v.len = v.data.take (e + (v.len - e)) := by rw [← hL]
        _ = v.data.take e ++ (v.data.drop e).take (v.len - e) :=
            List.take_add _ _ _
    rw [RawVector.live, h4, h3]
  rw [h1, h2]
  conv_rhs => rw [hsplit]
  refine (List.Perm.append hperm (List.Perm.refl
    (v.data.take s ++ (v.data.drop e).take (v.len - e)))).trans ?_
  rw [← List.append_assoc]
  exact List.perm_append_comm.append_right _

/-- Witness for C5 on a fully consumed drain of `[1, 3)` out of
`[1, 2, 3, 4]`, pulled once from the front and once from the back. -/
theorem drain_element_conservation_witness :
    (↑(Drain.consumeSeq [true, false]
          ((⟨[1, 2, 3, 4], 4⟩ : RawVector Nat).drain 1 3)).1 +
        ↑((Drain.consumeSeq [true, false]
          ((⟨[1, 2, 3, 4], 4⟩ : RawVector Nat).drain 1 3)).2.drop
          (fun _ => false)).2.live
      : Multiset Nat) = ↑(⟨[1, 2, 3, 4], 4⟩ : RawVector Nat).live :=
  drain_element_conservation (⟨[1, 2, 3, 4], 4⟩ : RawVector Nat) 1 3
    [true, false] (by decide) (by decide) (by decide) (by decide)

theorem drain_next_none_iff {α : Type} [Inhabited α] (d : Drain α) :
    (d.next).1 = none ↔ ¬ d.front < d.back := by
  rw [Drain.next]
  by_cases h : d.front < d.back
  · rw [if_pos h]; simp [h]
  · rw [if_neg h]; simp [h]

theorem drain_next_back_none_iff {α : Type} [Inhabited α] (d : Drain α) :
    (d.next_back).1 = none ↔ ¬ d.front < d.back := by
  rw [Drain.next_back]
  by_cases h : d.front < d.back
  · rw [if_pos h]; simp [h]
  · rw [if_neg h]; simp [h]

/-- C9: once a pull on a `Drain` or `Splice` iterator reports exhausted,
every subsequent pull sequence yields nothing and still reports
exhausted. -/
theorem iterator_fused_exhaustion {α : Type} [Inhabited α] (d : Drain α)
    (s : Splice α) (bs : List Bool) :
    (((d.next).1 = none ∨ (d.next_back).1 = none) →
      (Drain.consumeSeq bs d).1 = [] ∧
      ((Drain.consumeSeq bs d).2.next).1 = none ∧
      ((Drain.consumeSeq bs d).2.next_back).1 = none) ∧
    (((s.next).1 = none ∨ (s.next_back).1 = none) →
      (Splice.consumeSeq bs s).1 = [] ∧
      ((Splice.consumeSeq bs s).2.next).1 = none ∧
      ((Splice.consumeSeq bs s).2.next_back).1 = none) := by
  have main : ∀ d' : Drain α, ((d'.next).1 = none ∨ (d'.next_back).1 = none) →
      (Drain.consumeSeq bs d').1 = [] ∧
      ((Drain.consumeSeq bs d').2.next).1 = none ∧
      ((Drain.consumeSeq bs d').2.next_back).1 = none := by
    intro d' hex
    have hnb : ¬ d'.front < d'.back := by
      rcases hex with h | h
      · exact (drain_next_none_iff d').mp h
      · exact (drain_next_back_none_iff d').mp h
    rw [consumeSeq_exhausted bs d' hnb]
    exact ⟨rfl, (drain_next_none_iff d').mpr hnb,
      (drain_next_back_none_iff d').mpr hnb⟩
  refine ⟨main d, ?_⟩
  intro hex
  obtain ⟨i1, i2, i3⟩ := spliceConsume_delegates bs s
  have hex' : ((s.drain.next).1 = none ∨ (s.drain.next_back).1 = none) := by
    rcases hex with h | h
    · exact Or.inl h
    · exact Or.inr h
  obtain ⟨m1, m2, m3⟩ := main s.drain hex'
  refine ⟨by rw [i1]; exact m1, ?_, ?_⟩
  · show ((Splice.consumeSeq bs s).2.drain.next).1 = none
    rw [i2]; exact m2
  · show ((Splice.consumeSeq bs s).2.drain.next_back).1 = none
    rw [i2]; exact m3

/-- Witness for C9 on an exhausted drain/splice state. -/
theorem iterator_fused_exhaustion_witness :
    ((Drain.consumeSeq [true, false]
        (⟨0, 0, 2, 2, ⟨[5, 6], 2⟩⟩ : Drain Nat)).1 = [] ∧
      ((Drain.consumeSeq [true, false]
        (⟨0, 0, 2, 2, ⟨[5, 6], 2⟩⟩ : Drain Nat)).2.next).1 = none ∧
      ((Drain.consumeSeq [true, false]
        (⟨0, 0, 2, 2, ⟨[5, 6], 2⟩⟩ : Drain Nat)).2.next_back).1 = none) ∧
    ((Splice.consumeSeq [true, false]
        (⟨⟨0, 0, 2, 2, ⟨[5, 6], 2⟩⟩, [9]⟩ : Splice Nat)).1 = [] ∧
      ((Splice.consumeSeq [true, false]
        (⟨⟨0, 0, 2, 2, ⟨[5, 6], 2⟩⟩, [9]⟩ : Splice Nat)).2.next).1 = none ∧
      ((Splice.consumeSeq [true, false]
        (⟨⟨0, 0, 2, 2, ⟨[5, 6], 2⟩⟩, [9]⟩ : Splice Nat)).2.next_back).1 = none) :=
  ⟨(iterator_fused_exhaustion (⟨0, 0, 2, 2, ⟨[5, 6], 2⟩⟩ : Drain Nat)
      (⟨⟨0, 0, 2, 2, ⟨[5, 6], 2⟩⟩, [9]⟩ : Splice Nat) [true, false]).1
      (Or.inl (by decide)),
    (iterator_fused_exhaustion (⟨0, 0, 2, 2, ⟨[5, 6], 2⟩⟩ : Drain Nat)
      (⟨⟨0, 0, 2, 2, ⟨[5, 6], 2⟩⟩, [9]⟩ : Splice Nat) [true, false]).2
      (Or.inl (by decide))⟩

/-- C10: the `Splice` iterator operations delegate entirely to the inner
`Drain`: `next`, `next_back` and `size_hint` agree with the drain's, the
replacement sequence is never touched by iteration, and the reported
remaining count is the exact cursor length. -/
theorem splice_iterator_delegation {α : Type} [Inhabited α] (s : Splice α)
    (bs : List Bool) :
    (s.next).1 = (s.drain.next).1 ∧
    (s.next).2.drain = (s.drain.next).2 ∧
    (s.next).2.replace_with = s.replace_with ∧
    (s.next_back).1 = (s.drain.next_back).1 ∧
    (s.next_back).2.drain = (s.drain.next_back).2 ∧
    (s.next_back).2.replace_with = s.replace_with ∧
    s.size_hint = s.drain.size_hint ∧
    s.size_hint
      = (s.drain.back - s.drain.front, some (s.drain.back - s.drain.front)) ∧
    (Splice.consumeSeq bs s).1 = (Drain.consumeSeq bs s.drain).1 ∧
    (Splice.consumeSeq bs s).2.replace_with = s.replace_with := by
  obtain ⟨i1, i2, i3⟩ := spliceConsume_delegates bs s
  exact ⟨rfl, rfl, rfl, rfl, rfl, rfl, rfl, rfl, i1, i3⟩

/-- C4: during a splice growth pass, a failed reservation in `move_tail`
is surfaced (the abort outcome), is reported exactly when the allocator
refuses a needed growth, and leaves the container in its pre-shift state;
the tail shift happens only after the reservation succeeded. -/
theorem move_tail_alloc_failure_safety {α : Type} [Inhabited α] (d : Drain α)
    (alloc : Nat → Bool) (n : Nat) :
    ((d.move_tail alloc n).1 = false ↔
      d.vec.tryReserve alloc (d.tail_start + d.tail_len + n) = none) ∧
    ((d.move_tail alloc n).1 = false → (d.move_tail alloc n).2 = d) ∧
    (d.vec.tryReserve alloc (d.tail_start + d.tail_len + n) = none ↔
      d.vec.data.length < d.tail_start + d.tail_len + n ∧
        alloc (d.tail_start + d.tail_len + n) = false) := by
  refine ⟨?_, ?_, ?_⟩
  · rw [Drain.move_tail]
    cases h : d.vec.tryReserve alloc (d.tail_start + d.tail_len + n) with
    | none => simp
    | some v1 => simp
  · rw [Drain.move_tail]
    cases h : d.vec.tryReserve alloc (d.tail_start + d.tail_len + n) with
    | none => intro _; rfl
    | some v1 => intro hc; simp at hc
  · rw [RawVector.tryReserve]
    by_cases h1 : d.tail_start + d.tail_len + n ≤ d.vec.data.length
    · rw [if_pos h1]
      constructor
      · intro h
        cases h
      · intro h
        exact absurd h.1 (by omega)
    · rw [if_neg h1]
      by_cases h2 : alloc (d.tail_start + d.tail_len + n)
      · rw [if_pos h2]
        constructor
        · intro h
          cases h
        · intro h
          rw [h.2] at h2
          simp at h2
      · rw [if_neg h2]
        constructor
        · intro _
          refine ⟨by omega, by simpa using h2⟩
        · intro _
          rfl

/-- C6: for a splice whose removed range is a suffix (`tail_len = 0`),
release appends all remaining replacement elements via the container's
append-with-growth `extend` and performs no tail shifting: the result is
exactly `extend`, its live part is the old live part followed by the
replacement, and the slots in front of the old length are not moved. -/
theorem splice_suffix_fast_path {α : Type} [Inhabited α] (hint : List α → Nat)
    (alloc : Nat → Bool) (s : Splice α) (htl : s.drain.tail_len = 0)
    (hcap : s.drain.vec.len ≤ s.drain.vec.data.length) :
    Splice.drop hint alloc s = some (s.drain.vec.extend s.replace_with) ∧
    (s.drain.vec.extend s.replace_with).live
      = s.drain.vec.live ++ s.replace_with ∧
    (s.drain.vec.extend s.replace_with).len
      = s.drain.vec.len + s.replace_with.length ∧
    (s.drain.vec.extend s.replace_with).data.take s.drain.vec.len
      = s.drain.vec.data.take s.drain.vec.len := by
  obtain ⟨hel, hen⟩ := extend_spec s.drain.vec s.replace_with hcap
  refine ⟨?_, hel, hen, ?_⟩
  · have hvec : (Drain.drop (fun _ => false)
        (⟨s.drain.tail_start, s.drain.tail_len, 0, 0,
          s.drain.vec.extend s.replace_with⟩ : Drain α)).2
        = s.drain.vec.extend s.replace_with := by
      rw [drain_drop_vec]
      simp [dropGuardRun, htl]
    show spliceCore hint alloc
        (⟨s.drain.tail_start, s.drain.tail_len, 0, 0, s.drain.vec⟩ : Drain α)
        s.replace_with = some (s.drain.vec.extend s.replace_with)
    rw [spliceCore, if_pos (show (⟨s.drain.tail_start, s.drain.tail_len, 0, 0,
      s.drain.vec⟩ : Drain α).tail_len = 0 from htl)]
    show some (Drain.drop (fun _ => false)
      (⟨s.drain.tail_start, s.drain.tail_len, 0, 0,
        s.drain.vec.extend s.replace_with⟩ : Drain α)).2
      = some (s.drain.vec.extend s.replace_with)
    rw [hvec]
  · have hlive : (s.drain.vec.extend s.replace_with).data.take s.drain.vec.len
        = ((s.drain.vec.extend s.replace_with).data.take
            ((s.drain.vec.extend s.replace_with).len)).take s.drain.vec.len := by
      rw [List.take_take]
      congr 1
      rw [hen]
      omega
    rw [hlive]
    have : (s.drain.vec.extend s.replace_with).data.take
        ((s.drain.vec.extend s.replace_with).len)
        = s.drain.vec.live ++ s.replace_with := hel
    rw [this, List.take_append_eq_append_take]
    have hll : (s.drain.vec.live).length = s.drain.vec.len := by
      simp [RawVector.live]
      omega
    have h0 : s.drain.vec.len - (s.drain.vec.live).length = 0 := by
      rw [hll]
      omega
    rw [h0]
    simp only [List.take_zero, List.append_nil]
    rw [RawVector.live, List.take_take]
    congr 1
    omega

/-- Witness for C6: splicing the suffix range `[3, 5)` of `[0,1,2,3,4]`
with `[7, 8]`. -/
theorem splice_suffix_fast_path_witness :
    Splice.drop (fun xs => xs.length) (fun _ => true)
        (⟨⟨3, 0, 3, 5, ⟨[0, 1, 2, 3, 4], 3⟩⟩, [7, 8]⟩ : Splice Nat)
      = some ((⟨[0, 1, 2, 3, 4], 3⟩ : RawVector Nat).extend [7, 8]) ∧
    ((⟨[0, 1, 2, 3, 4], 3⟩ : RawVector Nat).extend [7, 8]).live
      = (⟨[0, 1, 2, 3, 4], 3⟩ : RawVector Nat).live ++ [7, 8] ∧
    ((⟨[0, 1, 2, 3, 4], 3⟩ : RawVector Nat).extend [7, 8]).len = 3 + 2 ∧
    ((⟨[0, 1, 2, 3, 4], 3⟩ : RawVector Nat).extend [7, 8]).data.take 3
      = [0, 1, 2, 3, 4].take 3 :=
  splice_suffix_fast_path (fun xs => xs.length) (fun _ => true)
    (⟨⟨3, 0, 3, 5, ⟨[0, 1, 2, 3, 4], 3⟩⟩, [7, 8]⟩ : Splice Nat)
    (by decide) (by decide)

/-- C7: the estimate-based growth pass runs only when the lower-bound
size estimate is positive — a zero estimate skips it entirely, leaving
the state untouched — and when it runs, `move_tail` reserves capacity for
`tail_start + tail_len + estimate` total elements, shifts the `tail_len`
tail elements forward by `estimate` slots, and advances `tail_start` by
`estimate`, before re-running the fill pass. -/
theorem splice_growth_pass_estimate {α : Type} [Inhabited α]
    (hint : List α → Nat) (alloc : Nat → Bool) (d : Drain α) (rest : List α) :
    (hint rest = 0 → growthPass hint alloc d rest = some (d, rest, true)) ∧
    (0 < hint rest → d.inv →
      alloc (d.tail_start + d.tail_len + hint rest) = true →
      growthPass hint alloc d rest
        = some (((d.move_tail alloc (hint rest)).2.fill rest).2.1,
            ((d.move_tail alloc (hint rest)).2.fill rest).2.2,
            ((d.move_tail alloc (hint rest)).2.fill rest).1) ∧
      (d.move_tail alloc (hint rest)).2.tail_start
        = d.tail_start + hint rest ∧
      d.tail_start + d.tail_len + hint rest
        ≤ (d.move_tail alloc (hint rest)).2.vec.data.length ∧
      (∀ j, j < d.tail_len →
        (d.move_tail alloc (hint rest)).2.vec.data.getD
            (d.tail_start + hint rest + j) default
          = d.vec.data.getD (d.tail_start + j) default)) := by
  constructor
  · intro h0
    rw [growthPass, h0]
    simp
  · intro hpos hinv halloc
    obtain ⟨hflag, hts, htl, _, _, hlen, hcap, hfp, htp, hinv2⟩ :=
      move_tail_spec d alloc (hint rest) hinv halloc
    have hmt : d.move_tail alloc (hint rest)
        = (true, (d.move_tail alloc (hint rest)).2) := by
      rw [← hflag]
    refine ⟨?_, hts, by rw [hcap]; omega, ?_⟩
    · rw [growthPass, if_pos hpos, hmt]
    · intro j hj
      have htpj := congrArg (fun l => l.getD j default) htp
      simp only [Drain.tailPart, hts, htl] at htpj
      rw [getD_drop_take _ _ _ _ hj, getD_drop_take _ _ _ _ hj] at htpj
      exact htpj

/-- Witness for C7: a state with tail `[3, 4]` at `tail_start = 3` and a
replacement remainder of estimated size 2 (and, for the skip direction, a
zero-estimate hint). -/
theorem splice_growth_pass_estimate_witness :
    growthPass (fun _ => 0) (fun _ => true)
        (⟨3, 2, 0, 0, ⟨[0, 1, 2, 3, 4], 3⟩⟩ : Drain Nat) [7, 8]
      = some (⟨3, 2, 0, 0, ⟨[0, 1, 2, 3, 4], 3⟩⟩, [7, 8], true) ∧
    ((⟨3, 2, 0, 0, ⟨[0, 1, 2, 3, 4], 3⟩⟩ : Drain Nat).move_tail
        (fun _ => true) 2).2.tail_start = 3 + 2 ∧
    (∀ j, j < 2 →
      ((⟨3, 2, 0, 0, ⟨[0, 1, 2, 3, 4], 3⟩⟩ : Drain Nat).move_tail
          (fun _ => true) 2).2.vec.data.getD (3 + 2 + j) default
        = [0, 1, 2, 3, 4].getD (3 + j) default) :=
  ⟨(splice_growth_pass_estimate (fun _ => 0) (fun _ => true)
      (⟨3, 2, 0, 0, ⟨[0, 1, 2, 3, 4], 3⟩⟩ : Drain Nat) [7, 8]).1 rfl,
    (((splice_growth_pass_estimate (fun xs => xs.length) (fun _ => true)
      (⟨3, 2, 0, 0, ⟨[0, 1, 2, 3, 4], 3⟩⟩ : Drain Nat) [7, 8]).2 (by decide)
      ⟨by decide, by decide⟩ rfl).2.1),
    (((splice_growth_pass_estimate (fun xs => xs.length) (fun _ => true)
      (⟨3, 2, 0, 0, ⟨[0, 1, 2, 3, 4], 3⟩⟩ : Drain Nat) [7, 8]).2 (by decide)
      ⟨by decide, by decide⟩ rfl).2.2.2)⟩

/-- C3: splicing `[s, e)` of a container with a finite replacement
sequence `R` (under any size-hint behaviour of the sequence and a
succeeding allocator) and releasing the view yields
`original[0:s] ++ R ++ original[e:]`; in particular splicing `[1, 3)` of
`[0,1,2,3,4]` with `[7,8,9]` yields `[0,7,8,9,3,4]`, and splicing the
empty range `[1, 1)` of `[0,1,2]` with `[9]` yields `[0,9,1,2]`. -/
theorem splice_replacement_correctness {α : Type} [Inhabited α]
    (v : RawVector α) (s e : Nat) (R : List α) (hint : List α → Nat)
    (hse : s ≤ e) (hev : e ≤ v.len) (hcap : v.len ≤ v.data.length) :
    (∃ r, Splice.drop hint (fun _ => true) (v.splice s e R) = some r ∧
      r.live = v.live.take s ++ R ++ v.live.drop e ∧
      r.len = s + R.length + (v.len - e)) ∧
    (Splice.drop (fun xs => xs.length) (fun _ => true)
        ((⟨[0, 1, 2, 3, 4], 5⟩ : RawVector Nat).splice 1 3 [7, 8, 9])).map
        RawVector.live = some [0, 7, 8, 9, 3, 4] ∧
    (Splice.drop (fun xs => xs.length) (fun _ => true)
        ((⟨[0, 1, 2], 3⟩ : RawVector Nat).splice 1 1 [9])).map
        RawVector.live = some [0, 9, 1, 2] := by
  refine ⟨?_, by rfl, by rfl⟩
  have hinv1 : ({ v.drain s e with front := 0, back := 0 } : Drain α).inv :=
    drain_inv v s e hse hev hcap
  obtain ⟨r, hr, hlive, hlen⟩ := spliceCore_spec hint (fun _ => true)
    { v.drain s e with front := 0, back := 0 } R hinv1 (fun _ => rfl)
  have hf : ({ v.drain s e with front := 0, back := 0 } : Drain α).frontPart
      = v.live.take s := drain_frontPart v s e (by omega)
  have ht : ({ v.drain s e with front := 0, back := 0 } : Drain α).tailPart
      = v.live.drop e := drain_tailPart v s e
  refine ⟨r, hr, ?_, ?_⟩
  · rw [hlive, hf, ht]
  · rw [hlen]
    show s + R.length + (v.len - e) = s + R.length + (v.len - e)
    rfl

/-- Witness for C3 on the first concrete scenario. -/
theorem splice_replacement_correctness_witness :
    (∃ r, Splice.drop (fun xs => xs.length) (fun _ => true)
        ((⟨[0, 1, 2, 3, 4], 5⟩ : RawVector Nat).splice 1 3 [7, 8, 9])
          = some r ∧
      r.live = (⟨[0, 1, 2, 3, 4], 5⟩ : RawVector Nat).live.take 1 ++ [7, 8, 9]
        ++ (⟨[0, 1, 2, 3, 4], 5⟩ : RawVector Nat).live.drop 3 ∧
      r.len = 1 + 3 + (5 - 3)) ∧
    (Splice.drop (fun xs => xs.length) (fun _ => true)
        ((⟨[0, 1, 2, 3, 4], 5⟩ : RawVector Nat).splice 1 3 [7, 8, 9])).map
        RawVector.live = some [0, 7, 8, 9, 3, 4] ∧
    (Splice.drop (fun xs => xs.length) (fun _ => true)
        ((⟨[0, 1, 2], 3⟩ : RawVector Nat).splice 1 1 [9])).map
        RawVector.live = some [0, 9, 1, 2] :=
  splice_replacement_correctness (⟨[0, 1, 2, 3, 4], 5⟩ : RawVector Nat) 1 3
    [7, 8, 9] (fun xs => xs.length) (by decide) (by decide) (by decide)

/-- Witness for C4: a reservation the allocator refuses leaves the
concrete drain state untouched. -/
theorem move_tail_alloc_failure_safety_witness :
    ((⟨3, 2, 0, 0, ⟨[0, 1, 2, 3, 4], 3⟩⟩ : Drain Nat).move_tail
        (fun _ => false) 2).2 = ⟨3, 2, 0, 0, ⟨[0, 1, 2, 3, 4], 3⟩⟩ :=
  (move_tail_alloc_failure_safety (⟨3, 2, 0, 0, ⟨[0, 1, 2, 3, 4], 3⟩⟩ :
    Drain Nat) (fun _ => false) 2).2.1 (by decide)

end SharedVector
